import Mathlib

/-!
Verification development for the RDF/SKOS thesaurus → JSON converter
(`src/convert.py` of the iiif_vocabulary repository).

The Python source is shallowly embedded: the rdflib `Graph` becomes a list
of triples over a `Term` type (URI references and language-tagged literals);
`graph.objects`, `graph.value` and `graph.subjects` become list queries that
preserve iteration order; `uuid.uuid5(uuid.NAMESPACE_URL, uri)` is implemented
in full (SHA-1 based version-5 UUID); the ambient clock readings
`int(time.time() * 1000)` are modelled by a per-run parameter `now`; the
unbounded recursion of `concept_to_json` is modelled with explicit fuel,
`none` standing for non-termination; the `IndexError` raised by
`list(g.subjects(...))[0]` on an empty list is modelled as the conversion's
missing-scheme error.
-/

/-! ### SHA-1, as used by Python's `uuid.uuid5` -/

/-- 2^32, the modulus for 32-bit arithmetic. -/
def m32 : Nat := 4294967296

/-- Rotate a 32-bit value (a `Nat` below `m32`) left by `n` bits. -/
def rotl32 (x n : Nat) : Nat :=
  ((x <<< n) % m32) ||| (x >>> (32 - n))

/-- SHA-1 round function `f` for round `i`. -/
def shaF (i b c d : Nat) : Nat :=
  if i < 20 then (b &&& c) ||| ((b ^^^ 0xFFFFFFFF) &&& d)
  else if i < 40 then b ^^^ c ^^^ d
  else if i < 60 then (b &&& c) ||| (b &&& d) ||| (c &&& d)
  else b ^^^ c ^^^ d

/-- SHA-1 round constant `K` for round `i`. -/
def shaK (i : Nat) : Nat :=
  if i < 20 then 0x5A827999
  else if i < 40 then 0x6ED9EBA1
  else if i < 60 then 0x8F1BBCDC
  else 0xCA62C1D6

/-- One SHA-1 compression round: state is `(a, b, c, d, e)`. -/
def shaStep (w i : Nat) (st : Nat × Nat × Nat × Nat × Nat) :
    Nat × Nat × Nat × Nat × Nat :=
  let (a, b, c, d, e) := st
  ((rotl32 a 5 + shaF i b c d + e + shaK i + w) % m32, a, rotl32 b 30, c, d)

/-- Run the 80 compression rounds over the schedule words `ws`,
starting at round index `i`. -/
def shaRounds : List Nat → Nat → Nat × Nat × Nat × Nat × Nat →
    Nat × Nat × Nat × Nat × Nat
  | [], _, st => st
  | w :: ws, i, st => shaRounds ws (i + 1) (shaStep w i st)

/-- Pack a list of bytes into big-endian 32-bit words (4 bytes per word). -/
def toWords : List Nat → List Nat
  | a :: b :: c :: d :: rest => (((a * 256 + b) * 256 + c) * 256 + d) :: toWords rest
  | _ => []

/-- Extend the message schedule: `rev` holds the words produced so far,
newest first; `k` more words are appended via the SHA-1 recurrence. -/
def extendWords (rev : List Nat) : Nat → List Nat
  | 0 => rev
  | k + 1 =>
    let w := rotl32 ((rev.getD 2 0) ^^^ (rev.getD 7 0) ^^^
                     (rev.getD 13 0) ^^^ (rev.getD 15 0)) 1
    extendWords (w :: rev) k

/-- Eight big-endian bytes of `n` (the 64-bit message length field). -/
def be64 (n : Nat) : List Nat :=
  [(n >>> 56) % 256, (n >>> 48) % 256, (n >>> 40) % 256, (n >>> 32) % 256,
   (n >>> 24) % 256, (n >>> 16) % 256, (n >>> 8) % 256, n % 256]

/-- Four big-endian bytes of a 32-bit word. -/
def be32 (n : Nat) : List Nat :=
  [(n >>> 24) % 256, (n >>> 16) % 256, (n >>> 8) % 256, n % 256]

/-- Split a byte list into `k` blocks of 64 bytes. -/
def chunksN : Nat → List Nat → List (List Nat)
  | 0, _ => []
  | k + 1, l => l.take 64 :: chunksN k (l.drop 64)

/-- Compress one 64-byte block into the running hash state. -/
def processBlock (h : Nat × Nat × Nat × Nat × Nat) (block : List Nat) :
    Nat × Nat × Nat × Nat × Nat :=
  let ws := (extendWords (toWords block).reverse 64).reverse
  let (h0, h1, h2, h3, h4) := h
  let (a, b, c, d, e) := shaRounds ws 0 (h0, h1, h2, h3, h4)
  ((h0 + a) % m32, (h1 + b) % m32, (h2 + c) % m32, (h3 + d) % m32, (h4 + e) % m32)

/-- SHA-1 of a byte list, as a 20-byte digest. -/
def sha1 (msg : List Nat) : List Nat :=
  let padded := msg ++ 0x80 :: (List.replicate ((119 - msg.length % 64) % 64) 0 ++
    be64 (8 * msg.length))
  let (h0, h1, h2, h3, h4) :=
    (chunksN (padded.length / 64) padded).foldl processBlock
      (0x67452301, 0xEFCDAB89, 0x98BADCFE, 0x10325476, 0xC3D2E1F0)
  be32 h0 ++ be32 h1 ++ be32 h2 ++ be32 h3 ++ be32 h4

/-! ### Version-5 UUIDs (`uuid.uuid5` with `uuid.NAMESPACE_URL`) -/

/-- The 16 bytes of `uuid.NAMESPACE_URL` (6ba7b811-9dad-11d1-80b4-00c04fd430c8). -/
def namespaceURLBytes : List Nat :=
  [0x6b, 0xa7, 0xb8, 0x11, 0x9d, 0xad, 0x11, 0xd1,
   0x80, 0xb4, 0x00, 0xc0, 0x4f, 0xd4, 0x30, 0xc8]

/-- The 16 bytes of a version-5 UUID of `name` under `NAMESPACE_URL`:
first 16 bytes of the SHA-1 digest with version and variant bits set. -/
def uuid5Bytes (name : List Nat) : List Nat :=
  let d := (sha1 (namespaceURLBytes ++ name)).take 16
  let d := d.set 6 (((d.getD 6 0) &&& 0x0F) ||| 0x50)
  d.set 8 (((d.getD 8 0) &&& 0x3F) ||| 0x80)

/-- Lowercase hex digit character for `n < 16`. -/
def hexDigitChar (n : Nat) : Char :=
  if n < 10 then Char.ofNat (48 + n) else Char.ofNat (87 + n)

/-- Two lowercase hex characters of a byte. -/
def byteHexChars (b : Nat) : List Char :=
  [hexDigitChar (b / 16), hexDigitChar (b % 16)]

/-- Hex string of a byte list. -/
def bytesHex (l : List Nat) : String :=
  String.mk (l.map byteHexChars).flatten

/-- Standard 8-4-4-4-12 textual form of a 16-byte UUID, as `str(uuid.UUID)`. -/
def uuidString (bs : List Nat) : String :=
  bytesHex (bs.take 4) ++ "-" ++ bytesHex ((bs.drop 4).take 2) ++ "-" ++
  bytesHex ((bs.drop 6).take 2) ++ "-" ++ bytesHex ((bs.drop 8).take 2) ++ "-" ++
  bytesHex (bs.drop 10)

/-- UTF-8 encoding of one character. -/
def utf8Char (c : Char) : List Nat :=
  let n := c.toNat
  if n < 0x80 then [n]
  else if n < 0x800 then
    [0xC0 ||| (n >>> 6), 0x80 ||| (n &&& 0x3F)]
  else if n < 0x10000 then
    [0xE0 ||| (n >>> 12), 0x80 ||| ((n >>> 6) &&& 0x3F), 0x80 ||| (n &&& 0x3F)]
  else
    [0xF0 ||| (n >>> 18), 0x80 ||| ((n >>> 12) &&& 0x3F),
     0x80 ||| ((n >>> 6) &&& 0x3F), 0x80 ||| (n &&& 0x3F)]

/-- UTF-8 encoding of a string, as Python's `str.encode("utf-8")`. -/
def utf8Bytes (s : String) : List Nat :=
  (s.data.map utf8Char).flatten

/-- `generate_id(uri)` of `src/convert.py`:
`str(uuid.uuid5(uuid.NAMESPACE_URL, uri))`, a stable UUID from the URI. -/
def generate_id (uri : String) : String :=
  uuidString (uuid5Bytes (utf8Bytes uri))

set_option maxRecDepth 40000 in
/-- Sanity: `generate_id` agrees with CPython's
`uuid.uuid5(uuid.NAMESPACE_URL, "http://example.org/a")`. -/
theorem generate_id_example :
    generate_id "http://example.org/a" = "5f8a26f2-91ce-506a-97bc-f098f056e21f" := by
  rfl

/-! ### RDF terms, graphs, and rdflib-style queries -/

/-- An RDF term as used by the converter: a URI reference, or a literal with
an optional language tag (`label.language` in rdflib is `None` for plain
literals; URI-valued objects are modelled as carrying no language tag). -/
inductive Term where
  | uri (s : String)
  | lit (value : String) (lang : Option String)
deriving DecidableEq, Repr

/-- An rdflib `Graph`: the triples, in iteration order. -/
abbrev Graph := List (Term × String × Term)

/-- `str()` of a term: a URI's string, or a literal's lexical value. -/
def termStr : Term → String
  | .uri s => s
  | .lit v _ => v

/-- `term.language`: the language tag of a literal, `none` otherwise. -/
def termLang : Term → Option String
  | .uri _ => none
  | .lit _ l => l

/-- Python `str()` applied to a possibly missing term: `str(None) = "None"`. -/
def pyStr : Option Term → String
  | none => "None"
  | some t => termStr t

/-- `graph.objects(s, p)`: objects of all triples with subject `s` and
predicate `p`, in iteration order. -/
def objectsOf (g : Graph) (s : Term) (p : String) : List Term :=
  g.filterMap fun t => if t.1 = s ∧ t.2.1 = p then some t.2.2 else none

/-- `graph.subjects(p, o)`: subjects of all triples with predicate `p` and
object `o`, in iteration order. -/
def subjectsOf (g : Graph) (p : String) (o : Term) : List Term :=
  g.filterMap fun t => if t.2.1 = p ∧ t.2.2 = o then some t.1 else none

/-- `graph.value(s, p, None)`: the first object of `(s, p)` or `None`. -/
def valueOf (g : Graph) (s : Term) (p : String) : Option Term :=
  (objectsOf g s p).head?

/-- `http://www.w3.org/1999/02/22-rdf-syntax-ns#type` (`RDF.type`). -/
def RDF_type : String := "http://www.w3.org/1999/02/22-rdf-syntax-ns#type"

/-- `SKOS.prefLabel`. -/
def SKOS_prefLabel : String := "http://www.w3.org/2004/02/skos/core#prefLabel"

/-- `SKOS.narrower`. -/
def SKOS_narrower : String := "http://www.w3.org/2004/02/skos/core#narrower"

/-- `SKOS.hasTopConcept`. -/
def SKOS_hasTopConcept : String := "http://www.w3.org/2004/02/skos/core#hasTopConcept"

/-- `SKOS.ConceptScheme`, the class URI used to locate the root. -/
def SKOS_ConceptScheme : String := "http://www.w3.org/2004/02/skos/core#ConceptScheme"

/-- `DCT.created`. -/
def DCT_created : String := "http://purl.org/dc/terms/created"

/-- `DC.title`. -/
def DC_title : String := "http://purl.org/dc/elements/1.1/title"

/-! ### The converter (`src/convert.py`), shallowly embedded -/

/-- `type` field of an output node. -/
inductive NodeType where
  | category
  | tag
deriving DecidableEq, Repr

/-- An output JSON node. `children` and `showChildren` are `Option`s because
tag nodes carry neither field. `creationTimestamp` is the clock reading. -/
inductive Node where
  | mk (type : NodeType) (id : String) (name : String)
      (creationDate : Option String) (creationTimestamp : Nat)
      (children : Option (List Node)) (showChildren : Option Bool)

/-- The `type` field. -/
def Node.type : Node → NodeType
  | .mk t _ _ _ _ _ _ => t

/-- The `id` field. -/
def Node.id : Node → String
  | .mk _ i _ _ _ _ _ => i

/-- The `name` field. -/
def Node.name : Node → String
  | .mk _ _ n _ _ _ _ => n

/-- The `creationDate` field. -/
def Node.creationDate : Node → Option String
  | .mk _ _ _ d _ _ _ => d

/-- The `creationTimestamp` field. -/
def Node.creationTimestamp : Node → Nat
  | .mk _ _ _ _ ts _ _ => ts

/-- The `children` field (`none` when the field is absent). -/
def Node.children : Node → Option (List Node)
  | .mk _ _ _ _ _ c _ => c

/-- The `showChildren` field (`none` when the field is absent). -/
def Node.showChildren : Node → Option Bool
  | .mk _ _ _ _ _ _ s => s

/-- `has_children(graph, subject)`:
`len(list(graph.objects(subject, SKOS.narrower))) > 0`. -/
def has_children (g : Graph) (subject : Term) : Bool :=
  (objectsOf g subject SKOS_narrower).length > 0

/-- `get_pref_label_fr(graph, concept)`: the first prefLabel tagged
`"fr-fr"`, else `str(graph.value(concept, SKOS.prefLabel, None))`. -/
def get_pref_label_fr (g : Graph) (concept : Term) : String :=
  match (objectsOf g concept SKOS_prefLabel).find?
      (fun l => termLang l = some "fr-fr") with
  | some label => termStr label
  | none => pyStr (valueOf g concept SKOS_prefLabel)

/-- `get_creation_date(graph, concept)`: `str` of the first `DCT.created`
object, or `None`. -/
def get_creation_date (g : Graph) (concept : Term) : Option String :=
  (objectsOf g concept DCT_created).head?.map termStr

/-- `create_tag(uri, name, creation_date)`: note the `id` field is the raw
`uri` argument, not `generate_id(uri)`. -/
def create_tag (uri : String) (name : String) (creation_date : Option String)
    (now : Nat) : Node :=
  .mk .tag uri name creation_date now none none

/-- The child-processing loop shared verbatim by `concept_to_json`
(lines 79–90) and `rdf_to_json` (lines 116–127): convert each child with
`conv`, append it, and when it is a category also append its synthesized
tag (built from the child's raw URI, label and date) right after it. -/
def convertChildren (g : Graph) (now : Nat) (conv : Term → Option Node) :
    List Term → Option (List Node)
  | [] => some []
  | child :: rest =>
    match conv child with
    | none => none
    | some child_obj =>
      match convertChildren g now conv rest with
      | none => none
      | some rest2 =>
        if child_obj.type = NodeType.category then
          some (child_obj :: create_tag (termStr child) (get_pref_label_fr g child)
            (get_creation_date g child) now :: rest2)
        else
          some (child_obj :: rest2)

/-- `concept_to_json(graph, concept)`, with explicit recursion fuel:
`none` models a recursion that does not come back (fuel exhausted). -/
def concept_to_json (g : Graph) (now : Nat) : Nat → Term → Option Node
  | 0, _ => none
  | fuel + 1, concept =>
    if has_children g concept then
      match convertChildren g now (fun c => concept_to_json g now fuel c)
          (objectsOf g concept SKOS_narrower) with
      | none => none
      | some children =>
        some (.mk .category (generate_id (termStr concept))
          (get_pref_label_fr g concept) (get_creation_date g concept) now
          (some children) (some true))
    else
      some (create_tag (termStr concept) (get_pref_label_fr g concept)
        (get_creation_date g concept) now)

/-- The conversion's failure mode: `list(g.subjects(...))[0]` raises
`IndexError` when the graph has no `ConceptScheme` subject. -/
inductive ConvError where
  | missingScheme
deriving DecidableEq, Repr

/-- `rdf_to_json` (after the file has been parsed into `g`): find the first
`ConceptScheme` subject (error when there is none), convert its top
concepts with the duplication loop, and wrap them in the root category,
whose `id` is the scheme's raw URI string. -/
def rdf_to_json (g : Graph) (now : Nat) (fuel : Nat) :
    Option (Except ConvError (List Node)) :=
  match (subjectsOf g RDF_type (Term.uri SKOS_ConceptScheme)).head? with
  | none => some (.error .missingScheme)
  | some concept_scheme =>
    let scheme_name := pyStr (valueOf g concept_scheme DC_title)
    match convertChildren g now (fun c => concept_to_json g now fuel c)
        (objectsOf g concept_scheme SKOS_hasTopConcept) with
    | none => none
    | some children =>
      some (.ok [Node.mk .category (termStr concept_scheme) scheme_name
        (get_creation_date g concept_scheme) now (some children) (some true)])

/-! ### Walking the output tree -/

mutual

/-- All nodes of a tree: the node itself and, recursively, everything in
its `children` field. -/
def Node.allNodes : Node → List Node
  | .mk t i n d ts c s => Node.mk t i n d ts c s :: allNodesOpt c

/-- `allNodes` through an optional children field. -/
def allNodesOpt : Option (List Node) → List Node
  | none => []
  | some l => allNodesList l

/-- `allNodes` of every tree in a list, concatenated. -/
def allNodesList : List Node → List Node
  | [] => []
  | n :: rest => n.allNodes ++ allNodesList rest

end

/-! ### Properties the claims talk about -/

/-- `t` is the synthesized tag duplicate of the category node `k`, as the
code builds it: same `name` and `creationDate`, no `children` or
`showChildren`, and the raw subject URI as `id` — of which `k.id` is the
version-5 UUID. -/
def IsDupTagOf (k t : Node) : Prop :=
  t.type = .tag ∧ t.name = k.name ∧ t.creationDate = k.creationDate ∧
  t.children = none ∧ t.showChildren = none ∧ k.id = generate_id t.id

/-- Every category element of the list is immediately followed by its
synthesized tag duplicate (in the sense of `IsDupTagOf`). -/
def DupList : List Node → Prop
  | [] => True
  | k :: rest =>
    (k.type = .category → ∃ t rest2, rest = t :: rest2 ∧ IsDupTagOf k t) ∧
    DupList rest

/-- The duplication pairing exactly as claimed: the tag also shares `k.id`. -/
def IsDupTagSameId (k t : Node) : Prop :=
  t.type = .tag ∧ t.id = k.id ∧ t.name = k.name ∧ t.creationDate = k.creationDate ∧
  t.children = none ∧ t.showChildren = none

/-- `DupList` with the claimed shared-`id` pairing. -/
def DupListSameId : List Node → Prop
  | [] => True
  | k :: rest =>
    (k.type = .category → ∃ t rest2, rest = t :: rest2 ∧ IsDupTagSameId k t) ∧
    DupListSameId rest

/-- The node `m` is the converted form of graph subject `t`: its fields are
the resolved label, date and clock reading of `t`, and its `id` follows the
code's rule — category nodes hash the subject's URI with `generate_id`,
tag nodes carry the raw URI string. -/
def NodeFromSubject (g : Graph) (now : Nat) (t : Term) (m : Node) : Prop :=
  m.name = get_pref_label_fr g t ∧
  m.creationDate = get_creation_date g t ∧
  m.creationTimestamp = now ∧
  ((m.type = .tag ∧ m.id = termStr t ∧ m.children = none ∧ m.showChildren = none) ∨
   (m.type = .category ∧ has_children g t = true ∧
    m.id = generate_id (termStr t) ∧ m.showChildren = some true ∧
    m.children ≠ none))

/-- Zero or more `SKOS.narrower` edges in `g` from the first term to the
second. -/
inductive NarrowerStar (g : Graph) : Term → Term → Prop
  | refl (t : Term) : NarrowerStar g t t
  | tail {a b c : Term} : NarrowerStar g a b →
      c ∈ objectsOf g b SKOS_narrower → NarrowerStar g a c

/-- `l` is a chain of consecutive `SKOS.narrower` edges starting at `c`. -/
def NarrowChain (g : Graph) : Term → List Term → Prop
  | _, [] => True
  | c, b :: rest => b ∈ objectsOf g c SKOS_narrower ∧ NarrowChain g b rest

mutual

/-- Erase every `creationTimestamp` in a tree (set it to `0`). -/
def eraseTs : Node → Node
  | .mk t i n d _ c s => .mk t i n d 0 (eraseTsOpt c) s

/-- `eraseTs` through an optional children field. -/
def eraseTsOpt : Option (List Node) → Option (List Node)
  | none => none
  | some l => some (eraseTsList l)

/-- `eraseTs` over a list of trees. -/
def eraseTsList : List Node → List Node
  | [] => []
  | n :: rest => eraseTs n :: eraseTsList rest

end

/-- Erase every `creationTimestamp` in a whole conversion result. -/
def eraseRun : Option (Except ConvError (List Node)) →
    Option (Except ConvError (List Node))
  | none => none
  | some (.error e) => some (.error e)
  | some (.ok l) => some (.ok (eraseTsList l))

/-! ### Basic lemmas about the tree walk and the queries -/

/-- Membership in `allNodes`: the node itself, or a node of some child. -/
theorem mem_allNodes {n m : Node} :
    m ∈ n.allNodes ↔ m = n ∨ ∃ cs, n.children = some cs ∧ m ∈ allNodesList cs := by
  cases n with
  | mk t i nm d ts c s =>
    cases c <;> simp [Node.allNodes, allNodesOpt, Node.children]

/-- Membership in `allNodesList` is membership in some element's `allNodes`. -/
theorem mem_allNodesList {l : List Node} {m : Node} :
    m ∈ allNodesList l ↔ ∃ n ∈ l, m ∈ n.allNodes := by
  induction l with
  | nil => simp [allNodesList]
  | cons n rest ih => simp [allNodesList, ih]

/-- A node is among its own `allNodes`. -/
theorem self_mem_allNodes (n : Node) : n ∈ n.allNodes := by
  rw [mem_allNodes]; exact Or.inl rfl

/-- `objectsOf` membership is triple membership. -/
theorem mem_objectsOf {g : Graph} {a b : Term} {p : String} :
    b ∈ objectsOf g a p ↔ (a, p, b) ∈ g := by
  simp only [objectsOf, List.mem_filterMap]
  constructor
  · rintro ⟨⟨s', p', o'⟩, hmem, hf⟩
    by_cases hc : s' = a ∧ p' = p
    · simp only [hc, and_self, if_true, Option.some.injEq] at hf
      obtain ⟨h1, h2⟩ := hc
      subst h1; subst h2; subst hf; exact hmem
    · simp [hc] at hf
  · intro hmem
    exact ⟨(a, p, b), hmem, by simp⟩

/-- The fields of a `create_tag` node. -/
theorem create_tag_fields (u n : String) (d : Option String) (now : Nat) :
    (create_tag u n d now).type = NodeType.tag ∧
    (create_tag u n d now).id = u ∧
    (create_tag u n d now).name = n ∧
    (create_tag u n d now).creationDate = d ∧
    (create_tag u n d now).creationTimestamp = now ∧
    (create_tag u n d now).children = none ∧
    (create_tag u n d now).showChildren = none := by
  refine ⟨rfl, rfl, rfl, rfl, rfl, rfl, rfl⟩

/-- `allNodes` of a tag node is just the node. -/
theorem allNodes_create_tag (u n : String) (d : Option String) (now : Nat) :
    (create_tag u n d now).allNodes = [create_tag u n d now] := rfl

/-! ### Inversion lemmas for the converter -/

/-- Unfolding one step of the child-processing loop. -/
theorem convertChildren_cons_inv {g : Graph} {now : Nat} {conv : Term → Option Node}
    {child : Term} {rest : List Term} {cs : List Node}
    (h : convertChildren g now conv (child :: rest) = some cs) :
    ∃ k rest2, conv child = some k ∧ convertChildren g now conv rest = some rest2 ∧
      ((k.type = NodeType.category ∧
        cs = k :: create_tag (termStr child) (get_pref_label_fr g child)
          (get_creation_date g child) now :: rest2) ∨
       (k.type ≠ NodeType.category ∧ cs = k :: rest2)) := by
  cases hk : conv child with
  | none => simp [convertChildren, hk] at h
  | some k =>
    cases hr : convertChildren g now conv rest with
    | none => simp [convertChildren, hk, hr] at h
    | some rest2 =>
      refine ⟨k, rest2, rfl, rfl, ?_⟩
      by_cases ht : k.type = NodeType.category
      · simp only [convertChildren, hk, hr, Option.bind, ht, if_true,
          Option.some.injEq] at h
        exact Or.inl ⟨ht, h.symm⟩
      · simp only [convertChildren, hk, hr, Option.bind, ht, if_false,
          Option.some.injEq] at h
        exact Or.inr ⟨ht, h.symm⟩

/-- Every element of a produced children list is either a converted child
or the synthesized tag of a category-typed converted child. -/
theorem convertChildren_elem {g : Graph} {now : Nat} {conv : Term → Option Node} :
    ∀ {l : List Term} {cs : List Node}, convertChildren g now conv l = some cs →
    ∀ m ∈ cs, (∃ child ∈ l, conv child = some m) ∨
      (∃ child ∈ l, ∃ k, conv child = some k ∧ k.type = NodeType.category ∧
        m = create_tag (termStr child) (get_pref_label_fr g child)
          (get_creation_date g child) now) := by
  intro l
  induction l with
  | nil =>
    intro cs h m hm
    simp [convertChildren] at h
    subst h; simp at hm
  | cons child rest ih =>
    intro cs h m hm
    obtain ⟨k, rest2, hk, hr, hcase⟩ := convertChildren_cons_inv h
    rcases hcase with ⟨ht, hcs⟩ | ⟨ht, hcs⟩
    · subst hcs
      rcases hm with _ | ⟨_, hm⟩
      · exact Or.inl ⟨child, List.mem_cons_self _ _, hk⟩
      rcases hm with _ | ⟨_, hm⟩
      · exact Or.inr ⟨child, List.mem_cons_self _ _, k, hk, ht, rfl⟩
      · rcases ih hr m hm with ⟨c', hc', h'⟩ | ⟨c', hc', h'⟩
        · exact Or.inl ⟨c', List.mem_cons_of_mem _ hc', h'⟩
        · exact Or.inr ⟨c', List.mem_cons_of_mem _ hc', h'⟩
    · subst hcs
      rcases hm with _ | ⟨_, hm⟩
      · exact Or.inl ⟨child, List.mem_cons_self _ _, hk⟩
      · rcases ih hr m hm with ⟨c', hc', h'⟩ | ⟨c', hc', h'⟩
        · exact Or.inl ⟨c', List.mem_cons_of_mem _ hc', h'⟩
        · exact Or.inr ⟨c', List.mem_cons_of_mem _ hc', h'⟩

/-- Unfolding one step of `concept_to_json` (with fuel left). -/
theorem concept_to_json_succ_inv {g : Graph} {now fuel : Nat} {c : Term} {n : Node}
    (h : concept_to_json g now (fuel + 1) c = some n) :
    (has_children g c = false ∧
      n = create_tag (termStr c) (get_pref_label_fr g c) (get_creation_date g c) now) ∨
    (has_children g c = true ∧ ∃ cs,
      convertChildren g now (fun x => concept_to_json g now fuel x)
        (objectsOf g c SKOS_narrower) = some cs ∧
      n = Node.mk NodeType.category (generate_id (termStr c)) (get_pref_label_fr g c)
        (get_creation_date g c) now (some cs) (some true)) := by
  cases hb : has_children g c with
  | false =>
    left
    refine ⟨rfl, ?_⟩
    simp only [concept_to_json, hb, Bool.false_eq_true, if_false,
      Option.some.injEq] at h
    exact h.symm
  | true =>
    right
    refine ⟨rfl, ?_⟩
    simp only [concept_to_json, hb, if_true] at h
    cases hcc : convertChildren g now (fun x => concept_to_json g now fuel x)
        (objectsOf g c SKOS_narrower) with
    | none => rw [hcc] at h; exact absurd h (by simp)
    | some cs =>
      rw [hcc] at h
      simp only [Option.some.injEq] at h
      exact ⟨cs, rfl, h.symm⟩

/-- The single-call shape of `concept_to_json`: the produced node is the
converted form of the requested subject. -/
theorem concept_to_json_shape {g : Graph} {now fuel : Nat} {c : Term} {n : Node}
    (h : concept_to_json g now fuel c = some n) :
    NodeFromSubject g now c n := by
  cases fuel with
  | zero => simp [concept_to_json] at h
  | succ fuel =>
    rcases concept_to_json_succ_inv h with ⟨hb, hn⟩ | ⟨hb, cs, hcc, hn⟩
    · subst hn
      exact ⟨rfl, rfl, rfl, Or.inl ⟨rfl, rfl, rfl, rfl⟩⟩
    · subst hn
      exact ⟨rfl, rfl, rfl, Or.inr ⟨rfl, hb, rfl, rfl, by simp [Node.children]⟩⟩

/-! ### The duplication pairing -/

/-- The child-processing loop pairs every category element with its
synthesized tag, provided `conv` fills category fields from the subject. -/
theorem convertChildren_dup {g : Graph} {now : Nat} {conv : Term → Option Node} :
    ∀ {l : List Term} {cs : List Node}, convertChildren g now conv l = some cs →
    (∀ child k, child ∈ l → conv child = some k → k.type = NodeType.category →
      k.id = generate_id (termStr child) ∧ k.name = get_pref_label_fr g child ∧
      k.creationDate = get_creation_date g child) →
    DupList cs := by
  intro l
  induction l with
  | nil =>
    intro cs h _
    simp [convertChildren] at h
    subst h
    trivial
  | cons child rest ih =>
    intro cs h hid
    obtain ⟨k, rest2, hk, hr, hcase⟩ := convertChildren_cons_inv h
    have hrest : DupList rest2 :=
      ih hr (fun c' k' hc' => hid c' k' (List.mem_cons_of_mem _ hc'))
    rcases hcase with ⟨ht, hcs⟩ | ⟨ht, hcs⟩
    · subst hcs
      obtain ⟨hid1, hid2, hid3⟩ := hid child k (List.mem_cons_self _ _) hk ht
      refine ⟨fun _ => ⟨create_tag (termStr child) (get_pref_label_fr g child)
        (get_creation_date g child) now, rest2, rfl, ?_⟩,
        fun htag => absurd htag (by simp [create_tag, Node.type]), hrest⟩
      exact ⟨rfl, hid2.symm, hid3.symm, rfl, rfl, hid1⟩
    · subst hcs
      exact ⟨fun hcat => absurd hcat ht, hrest⟩

/-- Every children list anywhere in a converted subtree satisfies the
duplication pairing. -/
theorem concept_to_json_dupRec :
    ∀ fuel {g : Graph} {now : Nat} {c : Term} {n : Node},
    concept_to_json g now fuel c = some n →
    ∀ m ∈ n.allNodes, ∀ cs, m.children = some cs → DupList cs := by
  intro fuel
  induction fuel with
  | zero => intro g now c n h; simp [concept_to_json] at h
  | succ fuel ih =>
    intro g now c n h m hm cs hcs
    rcases concept_to_json_succ_inv h with ⟨hb, hn⟩ | ⟨hb, cs0, hcc, hn⟩
    · subst hn
      rw [mem_allNodes] at hm
      rcases hm with hm | ⟨cs', hcs', _⟩
      · subst hm; simp [create_tag, Node.children] at hcs
      · simp [create_tag, Node.children] at hcs'
    · subst hn
      rw [mem_allNodes] at hm
      rcases hm with hm | ⟨cs', hcs', hmem⟩
      · subst hm
        simp only [Node.children, Option.some.injEq] at hcs
        subst hcs
        refine convertChildren_dup hcc (fun child k hc hk ht => ?_)
        obtain ⟨h1, h2, h3, hdisj⟩ := concept_to_json_shape hk
        rcases hdisj with ⟨ht', _⟩ | ⟨_, _, hid, _, _⟩
        · rw [ht] at ht'; exact absurd ht' (by decide)
        · exact ⟨hid, h1, h2⟩
      · simp only [Node.children, Option.some.injEq] at hcs'
        subst hcs'
        rw [mem_allNodesList] at hmem
        obtain ⟨elem, helem, hmelem⟩ := hmem
        rcases convertChildren_elem hcc elem helem with ⟨child, _, hconv⟩ |
          ⟨child, _, k, _, _, helemtag⟩
        · exact ih hconv m hmelem cs hcs
        · subst helemtag
          rw [allNodes_create_tag] at hmelem
          simp at hmelem
          subst hmelem
          simp [create_tag, Node.children] at hcs

/-- Unfolding `rdf_to_json` on success: the first `ConceptScheme` subject
becomes the root, its top concepts run through the duplication loop. -/
theorem rdf_to_json_ok_inv {g : Graph} {now fuel : Nat} {res : List Node}
    (h : rdf_to_json g now fuel = some (Except.ok res)) :
    ∃ scheme rest cs,
      subjectsOf g RDF_type (Term.uri SKOS_ConceptScheme) = scheme :: rest ∧
      convertChildren g now (fun x => concept_to_json g now fuel x)
        (objectsOf g scheme SKOS_hasTopConcept) = some cs ∧
      res = [Node.mk NodeType.category (termStr scheme)
        (pyStr (valueOf g scheme DC_title)) (get_creation_date g scheme) now
        (some cs) (some true)] := by
  cases hs : subjectsOf g RDF_type (Term.uri SKOS_ConceptScheme) with
  | nil => simp [rdf_to_json, hs] at h
  | cons scheme rest =>
    cases hcc : convertChildren g now (fun x => concept_to_json g now fuel x)
        (objectsOf g scheme SKOS_hasTopConcept) with
    | none => simp [rdf_to_json, hs, List.head?_cons, hcc] at h
    | some cs =>
      refine ⟨scheme, rest, cs, rfl, hcc, ?_⟩
      simp only [rdf_to_json, hs, List.head?_cons, hcc, Option.some.injEq,
        Except.ok.injEq] at h
      exact h.symm

/-! ### Concrete graphs for counterexamples and witnesses -/

/-- Scheme subject `http://ex/s`. -/
def uS : Term := Term.uri "http://ex/s"

/-- Concept subject `http://ex/a` (a category: it has a narrower concept). -/
def uA : Term := Term.uri "http://ex/a"

/-- Concept subject `http://ex/b` (a leaf). -/
def uB : Term := Term.uri "http://ex/b"

/-- Concept subject `http://ex/x` (a leaf with no label at all). -/
def uX : Term := Term.uri "http://ex/x"

/-- A small well-formed vocabulary: scheme `uS` titled "Thesaurus" with top
concept `uA` ("Animaux", created 2020-01-01), which narrows to the leaf
`uB` ("Chien", created 2021-02-02). -/
def gA : Graph :=
  [(uS, RDF_type, Term.uri SKOS_ConceptScheme),
   (uS, DC_title, Term.lit "Thesaurus" none),
   (uS, SKOS_hasTopConcept, uA),
   (uA, SKOS_prefLabel, Term.lit "Animaux" (some "fr-fr")),
   (uA, DCT_created, Term.lit "2020-01-01" none),
   (uA, SKOS_narrower, uB),
   (uB, SKOS_prefLabel, Term.lit "Chien" (some "fr-fr")),
   (uB, DCT_created, Term.lit "2021-02-02" none)]

/-- The leaf node for `uB` in the conversion of `gA` at clock `0`. -/
def nodeB : Node :=
  Node.mk NodeType.tag "http://ex/b" "Chien" (some "2021-02-02") 0 none none

/-- The category node for `uA` in the conversion of `gA` at clock `0`. -/
def nodeA : Node :=
  Node.mk NodeType.category (generate_id "http://ex/a") "Animaux"
    (some "2020-01-01") 0 (some [nodeB]) (some true)

/-- The synthesized tag duplicate of `uA` in the conversion of `gA`. -/
def tagA : Node :=
  Node.mk NodeType.tag "http://ex/a" "Animaux" (some "2020-01-01") 0 none none

/-- The root node of the conversion of `gA` at clock `0`. -/
def rootA : Node :=
  Node.mk NodeType.category "http://ex/s" "Thesaurus" none 0
    (some [nodeA, tagA]) (some true)

set_option maxRecDepth 100000 in
/-- The conversion of `gA` computes to the expected tree. -/
theorem rdf_to_json_gA : rdf_to_json gA 0 5 = some (Except.ok [rootA]) := by
  rfl

/-- A vocabulary whose only top concept `uX` has no label of any kind. -/
def gNoLabel : Graph :=
  [(uS, RDF_type, Term.uri SKOS_ConceptScheme),
   (uS, DC_title, Term.lit "T" none),
   (uS, SKOS_hasTopConcept, uX)]

/-- A graph with no `ConceptScheme` subject at all. -/
def gNoScheme : Graph :=
  [(uA, RDF_type, Term.uri "http://ex/other"),
   (uA, SKOS_prefLabel, Term.lit "Animaux" (some "fr-fr"))]

/-- Labels for the fallback scenarios: `uA` has an fr-fr label and an
English one; `uB` has only a German label. -/
def gLabels : Graph :=
  [(uA, SKOS_prefLabel, Term.lit "Hello" (some "en")),
   (uA, SKOS_prefLabel, Term.lit "Bonjour" (some "fr-fr")),
   (uB, SKOS_prefLabel, Term.lit "Hallo" (some "de"))]

/-! ### Reachability correspondence -/

/-- Prepend one narrower edge to a reachability star. -/
theorem NarrowerStar.head {g : Graph} {a b t : Term}
    (hab : b ∈ objectsOf g a SKOS_narrower) (h : NarrowerStar g b t) :
    NarrowerStar g a t := by
  induction h with
  | refl => exact NarrowerStar.tail (NarrowerStar.refl a) hab
  | tail _ e ih => exact NarrowerStar.tail ih e

/-- Every node of a converted subtree is the converted form of a subject
reachable from the conversion root by zero or more narrower edges. -/
theorem concept_to_json_from :
    ∀ fuel {g : Graph} {now : Nat} {c : Term} {n : Node},
    concept_to_json g now fuel c = some n →
    ∀ m ∈ n.allNodes, ∃ t, NarrowerStar g c t ∧ NodeFromSubject g now t m := by
  intro fuel
  induction fuel with
  | zero => intro g now c n h; simp [concept_to_json] at h
  | succ fuel ih =>
    intro g now c n h m hm
    rcases concept_to_json_succ_inv h with ⟨hb, hn⟩ | ⟨hb, cs0, hcc, hn⟩
    · subst hn
      rw [allNodes_create_tag] at hm
      simp at hm
      subst hm
      exact ⟨c, NarrowerStar.refl c, concept_to_json_shape h⟩
    · subst hn
      rw [mem_allNodes] at hm
      rcases hm with hm | ⟨cs', hcs', hmem⟩
      · subst hm
        exact ⟨c, NarrowerStar.refl c, concept_to_json_shape h⟩
      · simp only [Node.children, Option.some.injEq] at hcs'
        subst hcs'
        rw [mem_allNodesList] at hmem
        obtain ⟨elem, helem, hmelem⟩ := hmem
        rcases convertChildren_elem hcc elem helem with ⟨child, hchild, hconv⟩ |
          ⟨child, hchild, k, hk, hkt, helemtag⟩
        · obtain ⟨t, hstar, hfrom⟩ := ih hconv m hmelem
          exact ⟨t, hstar.head hchild, hfrom⟩
        · subst helemtag
          rw [allNodes_create_tag] at hmelem
          simp at hmelem
          subst hmelem
          exact ⟨child, NarrowerStar.tail (NarrowerStar.refl c) hchild,
            rfl, rfl, rfl, Or.inl ⟨rfl, rfl, rfl, rfl⟩⟩

/-! ### Label fallback lemmas -/

/-- With no `prefLabel` triples at all, the resolver returns Python's
`str(None)`. -/
theorem get_pref_label_fr_no_label {g : Graph} {c : Term}
    (h : objectsOf g c SKOS_prefLabel = []) :
    get_pref_label_fr g c = "None" := by
  simp [get_pref_label_fr, h, valueOf, pyStr]

/-! ### Timestamp erasure lemmas -/

/-- `eraseTs` keeps the `type` field. -/
theorem eraseTs_type (n : Node) : (eraseTs n).type = n.type := by
  cases n; rfl

/-- The child-processing loop commutes with timestamp erasure: two runs with
different clocks (and erasure-equal converters) have erasure-equal results. -/
theorem convertChildren_erase (g : Graph) (conv1 conv2 : Term → Option Node)
    (hcv : ∀ c, Option.map eraseTs (conv1 c) = Option.map eraseTs (conv2 c))
    (now1 now2 : Nat) :
    ∀ l, Option.map eraseTsList (convertChildren g now1 conv1 l) =
      Option.map eraseTsList (convertChildren g now2 conv2 l) := by
  intro l
  induction l with
  | nil => rfl
  | cons child rest ih =>
    have h1 := hcv child
    cases hk1 : conv1 child with
    | none =>
      rw [hk1] at h1
      cases hk2 : conv2 child with
      | none => simp [convertChildren, hk1, hk2]
      | some k2 => rw [hk2] at h1; simp at h1
    | some k1 =>
      rw [hk1] at h1
      cases hk2 : conv2 child with
      | none => rw [hk2] at h1; simp at h1
      | some k2 =>
        rw [hk2] at h1
        simp only [Option.map_some', Option.some.injEq] at h1
        cases hr1 : convertChildren g now1 conv1 rest with
        | none =>
          rw [hr1] at ih
          cases hr2 : convertChildren g now2 conv2 rest with
          | none => simp [convertChildren, hk1, hk2, hr1, hr2]
          | some r2 => rw [hr2] at ih; simp at ih
        | some r1 =>
          rw [hr1] at ih
          cases hr2 : convertChildren g now2 conv2 rest with
          | none => rw [hr2] at ih; simp at ih
          | some r2 =>
            rw [hr2] at ih
            simp only [Option.map_some', Option.some.injEq] at ih
            have htype : k1.type = k2.type := by
              rw [← eraseTs_type k1, ← eraseTs_type k2, h1]
            by_cases hcat : k1.type = NodeType.category
            · simp only [convertChildren, hk1, hk2, hr1, hr2, hcat, ← htype,
                if_true, Option.map_some', Option.some.injEq, eraseTsList]
              rw [h1, ih]
              rfl
            · simp only [convertChildren, hk1, hk2, hr1, hr2, hcat, ← htype,
                if_false, Option.map_some', Option.some.injEq, eraseTsList]
              rw [h1, ih]

/-- `concept_to_json` at two different clocks: erasure-equal results. -/
theorem concept_to_json_erase (g : Graph) :
    ∀ fuel now1 now2 c,
      Option.map eraseTs (concept_to_json g now1 fuel c) =
      Option.map eraseTs (concept_to_json g now2 fuel c) := by
  intro fuel
  induction fuel with
  | zero => intro now1 now2 c; rfl
  | succ fuel ih =>
    intro now1 now2 c
    have hmap := convertChildren_erase g (fun x => concept_to_json g now1 fuel x)
      (fun x => concept_to_json g now2 fuel x) (fun x => ih now1 now2 x)
      now1 now2 (objectsOf g c SKOS_narrower)
    cases hb : has_children g c with
    | false => simp [concept_to_json, hb, eraseTs, eraseTsOpt, create_tag]
    | true =>
      simp only [concept_to_json, hb, if_true]
      cases hc1 : convertChildren g now1 (fun x => concept_to_json g now1 fuel x)
          (objectsOf g c SKOS_narrower) with
      | none =>
        rw [hc1] at hmap
        cases hc2 : convertChildren g now2 (fun x => concept_to_json g now2 fuel x)
            (objectsOf g c SKOS_narrower) with
        | none => simp
        | some cs2 => rw [hc2] at hmap; simp at hmap
      | some cs1 =>
        rw [hc1] at hmap
        cases hc2 : convertChildren g now2 (fun x => concept_to_json g now2 fuel x)
            (objectsOf g c SKOS_narrower) with
        | none => rw [hc2] at hmap; simp at hmap
        | some cs2 =>
          rw [hc2] at hmap
          simp only [Option.map_some', Option.some.injEq] at hmap
          simp [eraseTs, eraseTsOpt, hmap]

/-! ### Termination lemmas -/

/-- If every child converts, the child-processing loop succeeds. -/
theorem convertChildren_isSome {g : Graph} {now : Nat} {conv : Term → Option Node} :
    ∀ l, (∀ c ∈ l, (conv c).isSome) → (convertChildren g now conv l).isSome := by
  intro l
  induction l with
  | nil => intro _; simp [convertChildren]
  | cons child rest ih =>
    intro h
    obtain ⟨k, hk⟩ := Option.isSome_iff_exists.mp (h child (List.mem_cons_self _ _))
    obtain ⟨r, hr⟩ := Option.isSome_iff_exists.mp
      (ih (fun c hc => h c (List.mem_cons_of_mem _ hc)))
    by_cases hcat : k.type = NodeType.category <;>
      simp [convertChildren, hk, hr, hcat]

/-- If some child diverges, the child-processing loop diverges. -/
theorem convertChildren_none {g : Graph} {now : Nat} {conv : Term → Option Node} :
    ∀ {l : List Term} {c : Term}, c ∈ l → conv c = none →
      convertChildren g now conv l = none := by
  intro l
  induction l with
  | nil => intro c hc _; simp at hc
  | cons child rest ih =>
    intro c hc hnone
    rcases List.mem_cons.mp hc with hc | hc
    · subst hc; simp [convertChildren, hnone]
    · cases hk : conv child with
      | none => simp [convertChildren, hk]
      | some k =>
        have hr := ih hc hnone
        by_cases hcat : k.type = NodeType.category <;>
          simp [convertChildren, hk, hr, hcat]

/-- Fuel exceeding the rank bound makes the conversion finish. -/
theorem concept_to_json_terminates {g : Graph} {rank : Term → Nat}
    (hrank : ∀ a b, b ∈ objectsOf g a SKOS_narrower → rank b < rank a) :
    ∀ fuel now c, rank c < fuel → (concept_to_json g now fuel c).isSome := by
  intro fuel
  induction fuel with
  | zero => intro now c h; exact absurd h (Nat.not_lt_zero _)
  | succ fuel ih =>
    intro now c h
    cases hb : has_children g c with
    | false => simp [concept_to_json, hb]
    | true =>
      have hsome : (convertChildren g now (fun x => concept_to_json g now fuel x)
          (objectsOf g c SKOS_narrower)).isSome :=
        convertChildren_isSome _ (fun b hmem => ih now b (by
          have := hrank c b hmem; omega))
      obtain ⟨cs, hcs⟩ := Option.isSome_iff_exists.mp hsome
      simp [concept_to_json, hb, hcs]

/-- A narrower-chain at least as long as the fuel forces divergence. -/
theorem concept_to_json_chain_none {g : Graph} :
    ∀ (l : List Term) (now : Nat) (c : Term) (fuel : Nat),
      NarrowChain g c l → fuel ≤ l.length →
      concept_to_json g now fuel c = none := by
  intro l
  induction l with
  | nil =>
    intro now c fuel _ hlen
    have : fuel = 0 := Nat.le_zero.mp (by simpa using hlen)
    subst this; rfl
  | cons b rest ih =>
    intro now c fuel hchain hlen
    obtain ⟨hb, hrest⟩ := hchain
    cases fuel with
    | zero => rfl
    | succ fuel =>
      have hchild : has_children g c = true := by
        simp only [has_children, decide_eq_true_eq]
        exact List.length_pos.mpr (List.ne_nil_of_mem hb)
      have hnone := ih now b fuel hrest (by simpa using Nat.le_of_succ_le_succ hlen)
      have hcc : convertChildren g now (fun x => concept_to_json g now fuel x)
          (objectsOf g c SKOS_narrower) = none := convertChildren_none hb hnone
      simp [concept_to_json, hchild, hcc]

/-- The tag node for the label-less `uX` in the conversion of `gNoLabel`:
its `name` is the string `"None"`. -/
def nodeX : Node := Node.mk NodeType.tag "http://ex/x" "None" none 0 none none

/-- The root of the conversion of `gNoLabel` at clock `0`. -/
def rootNoLabel : Node :=
  Node.mk NodeType.category "http://ex/s" "T" none 0 (some [nodeX]) (some true)

/-! ### The claims -/

/-- **C1** (amended): for every category node `C` produced by the conversion
and every child node `K` of `C` with `K.type = category`, `C`'s children
list contains `K`'s full converted node followed immediately by a
synthesized tag node that shares `K`'s name and creationDate and carries no
children or showChildren fields; the tag's `id` is the child subject's raw
URI, of which `K.id` is the version-5 UUID (`K.id = generate_id t.id`) —
the tag does not share `K`'s `id` itself. The rule applies identically at
the root's top-concept level and at every deeper nesting level. -/
theorem duplication_law {g : Graph} {now fuel : Nat} {res : List Node}
    (h : rdf_to_json g now fuel = some (Except.ok res)) :
    ∀ root ∈ res, ∀ m ∈ root.allNodes, ∀ cs, m.children = some cs →
      DupList cs := by
  obtain ⟨scheme, rest, cs0, hs, hcc, hres⟩ := rdf_to_json_ok_inv h
  subst hres
  intro root hroot m hm cs hcs
  rw [List.mem_singleton] at hroot
  subst hroot
  rw [mem_allNodes] at hm
  rcases hm with hm | ⟨cs', hcs', hmem⟩
  · subst hm
    simp only [Node.children, Option.some.injEq] at hcs
    subst hcs
    refine convertChildren_dup hcc (fun child k hc hk ht => ?_)
    obtain ⟨h1, h2, h3, hdisj⟩ := concept_to_json_shape hk
    rcases hdisj with ⟨ht', _⟩ | ⟨_, _, hid, _, _⟩
    · rw [ht] at ht'; exact absurd ht' (by decide)
    · exact ⟨hid, h1, h2⟩
  · simp only [Node.children, Option.some.injEq] at hcs'
    subst hcs'
    rw [mem_allNodesList] at hmem
    obtain ⟨elem, helem, hmelem⟩ := hmem
    rcases convertChildren_elem hcc elem helem with ⟨child, _, hconv⟩ |
      ⟨child, _, k, _, _, helemtag⟩
    · exact concept_to_json_dupRec fuel hconv m hmelem cs hcs
    · subst helemtag
      rw [allNodes_create_tag] at hmelem
      simp at hmelem
      subst hmelem
      simp [create_tag, Node.children] at hcs

set_option maxRecDepth 100000 in
/-- **C1** counterexample: in the conversion of the concrete graph `gA` the
root is a category node whose children list holds the category child
`nodeA` followed by its synthesized tag `tagA`, and the pairing claimed by
C1 — the tag sharing `K`'s id — fails there: `tagA.id` is the raw URI
`"http://ex/a"` while `nodeA.id` is its version-5 UUID. -/
theorem duplication_law_cex :
    rdf_to_json gA 0 5 = some (Except.ok [rootA]) ∧
    rootA.type = NodeType.category ∧
    rootA.children = some [nodeA, tagA] ∧
    nodeA.type = NodeType.category ∧
    ¬ DupListSameId [nodeA, tagA] := by
  refine ⟨by rfl, rfl, rfl, rfl, ?_⟩
  intro hdup
  obtain ⟨h1, _⟩ := hdup
  obtain ⟨t, rest2, heq, htag⟩ := h1 rfl
  cases heq
  exact absurd htag.2.1 (by decide)

set_option maxRecDepth 100000 in
/-- **C1** witness: the duplication law holds on the root children list of
the conversion of `gA`. -/
theorem duplication_law_witness : DupList [nodeA, tagA] :=
  duplication_law (show rdf_to_json gA 0 5 = some (Except.ok [rootA]) from rfl)
    rootA (List.mem_singleton.mpr rfl) rootA
    (self_mem_allNodes rootA) [nodeA, tagA] rfl

/-- **C2** (amended): the root scheme node uses its raw URI string as id;
every non-root node is the converted form of some subject, with its id per
the code's rule — category nodes carry `generate_id` (the deterministic
version-5 UUID keyed on the URL namespace) of the subject's URI, while tag
nodes (leaves and synthesized duplicates) carry the subject's raw URI
string; ids are functions of the URI, so the same URI always yields the
same id. -/
theorem id_generation_rule {g : Graph} {now fuel : Nat} {res : List Node}
    {scheme : Term} {rest : List Term}
    (hs : subjectsOf g RDF_type (Term.uri SKOS_ConceptScheme) = scheme :: rest)
    (h : rdf_to_json g now fuel = some (Except.ok res)) :
    ∀ root ∈ res, root.id = termStr scheme ∧
      ∀ cs, root.children = some cs → ∀ m ∈ allNodesList cs,
        ∃ t : Term, NodeFromSubject g now t m := by
  obtain ⟨scheme', rest', cs0, hs', hcc, hres⟩ := rdf_to_json_ok_inv h
  rw [hs] at hs'
  injection hs' with h1 h2
  subst h1
  subst hres
  intro root hroot
  rw [List.mem_singleton] at hroot
  subst hroot
  refine ⟨rfl, ?_⟩
  intro cs hcs m hm
  simp only [Node.children, Option.some.injEq] at hcs
  subst hcs
  rw [mem_allNodesList] at hm
  obtain ⟨elem, helem, hmelem⟩ := hm
  rcases convertChildren_elem hcc elem helem with ⟨child, _, hconv⟩ |
    ⟨child, _, k, _, _, helemtag⟩
  · obtain ⟨t, _, hfrom⟩ := concept_to_json_from fuel hconv m hmelem
    exact ⟨t, hfrom⟩
  · subst helemtag
    rw [allNodes_create_tag] at hmelem
    simp at hmelem
    subst hmelem
    exact ⟨child, rfl, rfl, rfl, Or.inl ⟨rfl, rfl, rfl, rfl⟩⟩

set_option maxRecDepth 100000 in
/-- **C2** counterexample: in the conversion of `gA`, the non-root leaf
node for subject `uB` has id `"http://ex/b"` — the subject's raw URI — and
not the version-5 UUID of that URI, contradicting the claim that every
non-root node's id is the namespaced hash. -/
theorem id_generation_rule_cex :
    rdf_to_json gA 0 5 = some (Except.ok [rootA]) ∧
    rootA.children = some [nodeA, tagA] ∧
    nodeB ∈ allNodesList [nodeA, tagA] ∧
    NodeFromSubject gA 0 uB nodeB ∧
    nodeB.id = termStr uB ∧
    nodeB.id ≠ generate_id (termStr uB) := by
  refine ⟨by rfl, rfl, ?_, ?_, rfl, by decide⟩
  · rw [show allNodesList [nodeA, tagA] = [nodeA, nodeB, tagA] from rfl]
    exact List.mem_cons_of_mem _ (List.mem_cons_self _ _)
  · exact ⟨rfl, rfl, rfl, Or.inl ⟨rfl, rfl, rfl, rfl⟩⟩

set_option maxRecDepth 100000 in
/-- **C2** witness: the root of the conversion of `gA` carries the scheme's
raw URI, and the non-root node `nodeB` is the converted form of a subject
under the code's id rule. -/
theorem id_generation_rule_witness :
    rootA.id = termStr uS ∧ (∃ t, NodeFromSubject gA 0 t nodeB) := by
  have h := id_generation_rule
    (show subjectsOf gA RDF_type (Term.uri SKOS_ConceptScheme) = uS :: [] from rfl)
    (show rdf_to_json gA 0 5 = some (Except.ok [rootA]) from rfl)
    rootA (List.mem_singleton.mpr rfl)
  refine ⟨h.1, h.2 [nodeA, tagA] rfl nodeB ?_⟩
  rw [show allNodesList [nodeA, tagA] = [nodeA, nodeB, tagA] from rfl]
  exact List.mem_cons_of_mem _ (List.mem_cons_self _ _)

/-- **C3** counterexample: the graph `gNoLabel` contains a visited concept
`uX` with no `prefLabel` at all, yet the conversion succeeds — no
`MalformedGraphError` is raised (none exists in the code) — and the node is
emitted with the placeholder name `"None"` (Python's `str(None)`). -/
theorem missing_label_cex :
    objectsOf gNoLabel uX SKOS_prefLabel = [] ∧
    rdf_to_json gNoLabel 0 5 = some (Except.ok [rootNoLabel]) ∧
    rootNoLabel.children = some [nodeX] ∧
    nodeX.name = "None" := ⟨rfl, by rfl, rfl, rfl⟩

/-- **C3** (amended): when a visited concept has no `prefLabel` triples the
conversion does not fail: `get_pref_label_fr` falls back to Python's
`str(None)`, so the concept's node is emitted with the placeholder name
`"None"` instead of an error being raised. -/
theorem missing_label_placeholder {g : Graph} {now fuel : Nat} {c : Term}
    {n : Node} (hl : objectsOf g c SKOS_prefLabel = [])
    (h : concept_to_json g now fuel c = some n) :
    n.name = "None" := by
  rw [(concept_to_json_shape h).1, get_pref_label_fr_no_label hl]

/-- **C3** witness: the label-less concept `uX` of `gNoLabel`. -/
theorem missing_label_placeholder_witness : nodeX.name = "None" :=
  missing_label_placeholder
    (show objectsOf gNoLabel uX SKOS_prefLabel = [] from rfl)
    (show concept_to_json gNoLabel 0 5 uX = some nodeX from rfl)

/-- **C4**: for every concept with at least one prefLabel value tagged
"fr-fr", the resolved name equals an fr-fr-tagged value (the first found);
for every concept with prefLabel values but no fr-fr-tagged one, the
resolved name equals one of the other label values (not null), obtained via
the generic first-value lookup with no language preference. -/
theorem label_resolution (g : Graph) (c : Term) :
    ((∃ l ∈ objectsOf g c SKOS_prefLabel, termLang l = some "fr-fr") →
      ∃ l ∈ objectsOf g c SKOS_prefLabel, termLang l = some "fr-fr" ∧
        get_pref_label_fr g c = termStr l) ∧
    (objectsOf g c SKOS_prefLabel ≠ [] →
      (∀ l ∈ objectsOf g c SKOS_prefLabel, termLang l ≠ some "fr-fr") →
      ∃ l ∈ objectsOf g c SKOS_prefLabel, get_pref_label_fr g c = termStr l) := by
  constructor
  · intro hex
    have hsome : ((objectsOf g c SKOS_prefLabel).find?
        (fun l => termLang l = some "fr-fr")).isSome := by
      rw [List.find?_isSome]
      obtain ⟨l, hl, hfr⟩ := hex
      exact ⟨l, hl, by simpa using hfr⟩
    obtain ⟨l, hl⟩ := Option.isSome_iff_exists.mp hsome
    refine ⟨l, List.mem_of_find?_eq_some hl, by simpa using List.find?_some hl, ?_⟩
    simp [get_pref_label_fr, hl]
  · intro hne hnofr
    have hnone : (objectsOf g c SKOS_prefLabel).find?
        (fun l => termLang l = some "fr-fr") = none := by
      rw [List.find?_eq_none]
      intro x hx
      simpa using hnofr x hx
    cases hl : objectsOf g c SKOS_prefLabel with
    | nil => exact absurd hl hne
    | cons a rest =>
      have hnone2 := hnone
      rw [hl] at hnone2
      refine ⟨a, List.mem_cons_self _ _, ?_⟩
      simp [get_pref_label_fr, hl, hnone2, valueOf, pyStr]

/-- **C4** witness: in `gLabels`, `uA` resolves to its fr-fr label
"Bonjour"; `uB` has labels but no fr-fr one and resolves to one of them. -/
theorem label_resolution_witness :
    (∃ l ∈ objectsOf gLabels uA SKOS_prefLabel, termLang l = some "fr-fr" ∧
      get_pref_label_fr gLabels uA = termStr l) ∧
    (∃ l ∈ objectsOf gLabels uB SKOS_prefLabel,
      get_pref_label_fr gLabels uB = termStr l) :=
  ⟨(label_resolution gLabels uA).1 (by decide),
   (label_resolution gLabels uB).2 (by decide) (by decide)⟩

/-- **C5**: for every graph with no ConceptScheme subject the conversion
fails with the missing-scheme error (the `IndexError` of `list(...)[0]`,
the conversion's only failure before any output is built), surfaced to the
caller; no tree is produced. -/
theorem missing_scheme_error {g : Graph} {now fuel : Nat}
    (h : subjectsOf g RDF_type (Term.uri SKOS_ConceptScheme) = []) :
    rdf_to_json g now fuel = some (Except.error ConvError.missingScheme) := by
  simp [rdf_to_json, h]

/-- **C5** witness: the schemeless graph `gNoScheme`. -/
theorem missing_scheme_error_witness :
    rdf_to_json gNoScheme 0 5 = some (Except.error ConvError.missingScheme) :=
  missing_scheme_error (show subjectsOf gNoScheme RDF_type
    (Term.uri SKOS_ConceptScheme) = [] from rfl)

/-- **C6**: every successful conversion result is a one-element sequence
whose sole element is the root node with type category and
showChildren = true — exactly one root node per conversion run. -/
theorem root_invariant {g : Graph} {now fuel : Nat} {res : List Node}
    (h : rdf_to_json g now fuel = some (Except.ok res)) :
    ∃ root, res = [root] ∧ root.type = NodeType.category ∧
      root.showChildren = some true := by
  obtain ⟨scheme, rest, cs, hs, hcc, hres⟩ := rdf_to_json_ok_inv h
  exact ⟨_, hres, rfl, rfl⟩

set_option maxRecDepth 100000 in
/-- **C6** witness: the conversion of `gA`. -/
theorem root_invariant_witness :
    ∃ root, [rootA] = [root] ∧ root.type = NodeType.category ∧
      root.showChildren = some true :=
  root_invariant (show rdf_to_json gA 0 5 = some (Except.ok [rootA]) from rfl)

/-- **C7**: every converted concept with no objects under the narrower
relation is emitted as a node with type tag carrying no children field and
no showChildren field. -/
theorem leaf_law {g : Graph} {now fuel : Nat} {c : Term} {n : Node}
    (h : concept_to_json g now fuel c = some n)
    (hb : has_children g c = false) :
    n.type = NodeType.tag ∧ n.children = none ∧ n.showChildren = none := by
  obtain ⟨_, _, _, hdisj⟩ := concept_to_json_shape h
  rcases hdisj with ⟨ht, _, hch, hsh⟩ | ⟨_, hbc, _, _, _⟩
  · exact ⟨ht, hch, hsh⟩
  · rw [hb] at hbc; exact Bool.noConfusion hbc

/-- **C7** witness: the leaf `uB` of `gA`. -/
theorem leaf_law_witness :
    nodeB.type = NodeType.tag ∧ nodeB.children = none ∧
      nodeB.showChildren = none :=
  leaf_law (show concept_to_json gA 0 5 uB = some nodeB from rfl)
    (show has_children gA uB = false from rfl)

/-- **C8**: converting the same graph twice (any two clock readings) yields
identical results except for the creationTimestamp fields. -/
theorem conversion_determinism (g : Graph) (fuel now1 now2 : Nat) :
    eraseRun (rdf_to_json g now1 fuel) = eraseRun (rdf_to_json g now2 fuel) := by
  cases hs : subjectsOf g RDF_type (Term.uri SKOS_ConceptScheme) with
  | nil => simp [rdf_to_json, hs]
  | cons scheme rest =>
    have hmap := convertChildren_erase g (fun x => concept_to_json g now1 fuel x)
      (fun x => concept_to_json g now2 fuel x)
      (fun x => concept_to_json_erase g fuel now1 now2 x) now1 now2
      (objectsOf g scheme SKOS_hasTopConcept)
    cases hc1 : convertChildren g now1 (fun x => concept_to_json g now1 fuel x)
        (objectsOf g scheme SKOS_hasTopConcept) with
    | none =>
      rw [hc1] at hmap
      cases hc2 : convertChildren g now2 (fun x => concept_to_json g now2 fuel x)
          (objectsOf g scheme SKOS_hasTopConcept) with
      | none => simp [rdf_to_json, hs, List.head?_cons, hc1, hc2, eraseRun]
      | some cs2 => rw [hc2] at hmap; simp at hmap
    | some cs1 =>
      rw [hc1] at hmap
      cases hc2 : convertChildren g now2 (fun x => concept_to_json g now2 fuel x)
          (objectsOf g scheme SKOS_hasTopConcept) with
      | none => rw [hc2] at hmap; simp at hmap
      | some cs2 =>
        rw [hc2] at hmap
        simp only [Option.map_some', Option.some.injEq] at hmap
        simp [rdf_to_json, hs, List.head?_cons, hc1, hc2, eraseRun, eraseTsList,
          eraseTs, eraseTsOpt, hmap]

/-- A rank certificate for `gA`: `uA` sits above `uB`. -/
def rankA : Term → Nat := fun t => if t = uA then 1 else 0

/-- The rank decreases along every narrower edge of `gA`. -/
theorem rankA_decreasing :
    ∀ a b, b ∈ objectsOf gA a SKOS_narrower → rankA b < rankA a := by
  intro a b hmem
  rw [mem_objectsOf] at hmem
  simp only [gA, List.mem_cons, List.not_mem_nil, or_false] at hmem
  rcases hmem with h|h|h|h|h|h|h|h <;>
    rw [Prod.mk.injEq, Prod.mk.injEq] at h
  · exact absurd h.2.1 (by decide)
  · exact absurd h.2.1 (by decide)
  · exact absurd h.2.1 (by decide)
  · exact absurd h.2.1 (by decide)
  · exact absurd h.2.1 (by decide)
  · obtain ⟨h1, _, h3⟩ := h
    subst h1; subst h3
    decide
  · exact absurd h.2.1 (by decide)
  · exact absurd h.2.1 (by decide)

/-- **C9**: with a rank certificate witnessing that the narrower relation
is acyclic (the DAG precondition), the recursive conversion of any concept
terminates whenever the fuel exceeds the concept's rank — no cycle guard is
involved — and conversely any narrower-chain at least as long as the fuel
forces divergence, so the recursion depth equals the concept graph's
narrower-depth. -/
theorem dag_termination {g : Graph} {rank : Term → Nat}
    (hrank : ∀ a b, b ∈ objectsOf g a SKOS_narrower → rank b < rank a) :
    ∀ now c fuel,
      (rank c < fuel → (concept_to_json g now fuel c).isSome) ∧
      (∀ l, NarrowChain g c l → fuel ≤ l.length →
        concept_to_json g now fuel c = none) :=
  fun now c fuel =>
    ⟨fun h => concept_to_json_terminates hrank fuel now c h,
     fun l hc hl => concept_to_json_chain_none l now c fuel hc hl⟩

/-- **C9** witness: in `gA`, fuel 2 (above rank 1 of `uA`) converts `uA`,
while fuel 1 (not above the length of the chain `uA → uB`) diverges. -/
theorem dag_termination_witness :
    (concept_to_json gA 0 2 uA).isSome ∧ concept_to_json gA 0 1 uA = none :=
  ⟨(dag_termination rankA_decreasing 0 uA 2).1 (by decide),
   (dag_termination rankA_decreasing 0 uA 1).2 [uB] ⟨by decide, trivial⟩
     (by decide)⟩

/-- **C10**: every non-root node of the output is the converted form of a
subject reachable from the scheme via exactly one hasTopConcept edge
followed by zero or more narrower edges — so a concept attached to the
scheme only through other relations (e.g. `skos:inScheme` without being a
top concept) never yields an output node. -/
theorem output_reachability {g : Graph} {now fuel : Nat} {res : List Node}
    {scheme : Term} {rest : List Term}
    (hs : subjectsOf g RDF_type (Term.uri SKOS_ConceptScheme) = scheme :: rest)
    (h : rdf_to_json g now fuel = some (Except.ok res)) :
    ∀ root ∈ res, ∀ cs, root.children = some cs → ∀ m ∈ allNodesList cs,
      ∃ top t, top ∈ objectsOf g scheme SKOS_hasTopConcept ∧
        NarrowerStar g top t ∧ NodeFromSubject g now t m := by
  obtain ⟨scheme', rest', cs0, hs', hcc, hres⟩ := rdf_to_json_ok_inv h
  rw [hs] at hs'
  injection hs' with h1 h2
  subst h1
  subst hres
  intro root hroot cs hcs m hm
  rw [List.mem_singleton] at hroot
  subst hroot
  simp only [Node.children, Option.some.injEq] at hcs
  subst hcs
  rw [mem_allNodesList] at hm
  obtain ⟨elem, helem, hmelem⟩ := hm
  rcases convertChildren_elem hcc elem helem with ⟨child, hchild, hconv⟩ |
    ⟨child, hchild, k, _, _, helemtag⟩
  · obtain ⟨t, hstar, hfrom⟩ := concept_to_json_from fuel hconv m hmelem
    exact ⟨child, t, hchild, hstar, hfrom⟩
  · subst helemtag
    rw [allNodes_create_tag] at hmelem
    simp at hmelem
    subst hmelem
    exact ⟨child, child, hchild, NarrowerStar.refl child,
      rfl, rfl, rfl, Or.inl ⟨rfl, rfl, rfl, rfl⟩⟩

set_option maxRecDepth 100000 in
/-- **C10** witness: `nodeB` corresponds to `uB`, reached from the scheme
`uS` via the hasTopConcept edge to `uA` and one narrower edge. -/
theorem output_reachability_witness :
    ∃ top t, top ∈ objectsOf gA uS SKOS_hasTopConcept ∧
      NarrowerStar gA top t ∧ NodeFromSubject gA 0 t nodeB := by
  refine output_reachability
    (show subjectsOf gA RDF_type (Term.uri SKOS_ConceptScheme) = uS :: [] from rfl)
    (show rdf_to_json gA 0 5 = some (Except.ok [rootA]) from rfl)
    rootA (List.mem_singleton.mpr rfl) [nodeA, tagA] rfl nodeB ?_
  rw [show allNodesList [nodeA, tagA] = [nodeA, nodeB, tagA] from rfl]
  exact List.mem_cons_of_mem _ (List.mem_cons_self _ _)
